import Mathlib

/-!
Verification of the slice-production pipeline of `robustnessgym`
(`robustnessgym/slicebuilders/slicebuilder.py`), as a shallow embedding.

Datasets (`DataPanel`s) are modelled as ordered lists of rows; a batch is a
contiguous sublist.  A numpy boolean matrix is modelled by its list of rows
together with its column count (`Mat`), so that shape-dependent behaviour of
`np.concatenate` and transposition (`.T`) can be stated faithfully, including
on matrices with zero rows.
-/

namespace RobustnessGym

variable {ρ σ τ ε ι π : Type}

/-- A 2-d numpy boolean array of shape `(rows.length, ncols)`, as produced for
slice membership.  `ncols` is carried explicitly because numpy keeps the column
count of a `(0, k)` array even though it has no rows. -/
structure Mat where
  rows : List (List Bool)
  ncols : Nat
  deriving DecidableEq, Repr

/-- The sequential batching capability of the external dataset container
(`dp.batch(batch_size)`): contiguous, ordered, non-overlapping chunks of size
`bs` (last chunk possibly smaller), exhausting the list exactly once.  `fuel`
is an upper bound on the recursion depth (the list length), making the
definition structurally recursive and hence kernel-computable. -/
def batchChunksAux (bs : Nat) : Nat → List ρ → List (List ρ)
  | _, [] => []
  | 0, l => [l]
  | fuel + 1, x :: xs => (x :: xs.take (bs - 1)) :: batchChunksAux bs fuel (xs.drop (bs - 1))

/-- `dpBatch bs l` models `dp.batch(bs)` for a positive batch size `bs`. -/
def dpBatch (bs : Nat) (l : List ρ) : List (List ρ) :=
  batchChunksAux bs l.length l

/-- One step of the slice-accumulation loop in `process_dataset`:
`for sl, sl_batch in zip(slices, sliced_batches): sl.append(sl_batch)`.
`zip` truncates at the shorter list and the mutation is in place, so leftover
accumulators are unchanged and leftover sub-batches are dropped. -/
def appendStep : List (List (List σ)) → List (List σ) → List (List (List σ))
  | [], _ => []
  | a :: acc, [] => a :: acc
  | a :: acc, b :: bl => (a ++ [b]) :: appendStep acc bl

/-- `np.concatenate(ms, axis=0)` on a list of optional 2-d arrays.  numpy
raises (modelled as `none`) when the list is empty, when any element is `None`
(a zero-dimensional array), or when the column counts disagree. -/
def npConcatRows (ms : List (Option Mat)) : Option Mat :=
  if ms.any (fun m => m.isNone) then none
  else
    match ms.filterMap id with
    | [] => none
    | m0 :: rest =>
      if rest.all (fun mm => mm.ncols == m0.ncols) then
        some ⟨((m0 :: rest).map Mat.rows).flatten, m0.ncols⟩
      else none

/-- The default `SliceBuilder.process_batch`: returns the batch unchanged as a
single slice and `None` in place of a membership matrix. -/
def process_batch_default (b : List ρ) : List (List ρ) × Option Mat :=
  ([b], none)

/-- `SliceBuilder.process_dataset`.  `k` is `len(self.identifiers)`
(`num_slices`), `f` is the builder's `process_batch` (closed over `columns`).
Mirrors the source: initialize one accumulator per identifier holding an empty
`DataPanel`, batch the dataset, zip-append each returned sub-batch, collect the
membership submatrices, then `np.concatenate` the memberships (first) and
concatenate each accumulator into one slice.  A numpy failure is `none`. -/
def process_dataset (k : Nat) (f : List ρ → List (List σ) × Option Mat)
    (dp : List ρ) (batch_size : Nat) : Option (List (List σ) × Mat) :=
  let results := (dpBatch batch_size dp).map f
  match npConcatRows (results.map (fun r => r.2)) with
  | none => none
  | some m =>
    some (((results.map (fun r => r.1)).foldl appendStep
      (List.replicate k [([] : List σ)])).map List.flatten, m)

/-- The per-batch preparation loop of `prepare_dataset`: run `prepare_batch`
on each batch, stopping at the first `NotImplementedError` (modelled as
`none`), which leaves the accumulated state as is. -/
def prepare_loop (pb : τ → List ρ → Option τ) : τ → List (List ρ) → τ
  | st, [] => st
  | st, b :: rest =>
    match pb st b with
    | none => st
    | some st2 => prepare_loop pb st2 rest

/-- `SliceBuilder.prepare_dataset`: batch the dataset at the supplied batch
size and fold the preparation hook over the batches. -/
def prepare_dataset (pb : τ → List ρ → Option τ) (st : τ) (dp : List ρ)
    (batch_size : Nat) : τ :=
  prepare_loop pb st (dpBatch batch_size dp)

/-- The unsatisfied prerequisites collected by `prerequisites_handler`:
those whose `available(dp)` is false. -/
def pendingPrereqs (prereqs : List π) (avail : π → List ρ → Bool) (dp : List ρ) : List π :=
  prereqs.filter (fun p => !(avail p dp))

/-- Failures that `SliceBuilder.__call__` can raise: the `RuntimeError` of
`prerequisites_handler` (carrying the unsatisfied prerequisites) and the
`ValueError` numpy raises inside `process_dataset`. -/
inductive CallErr (π : Type) where
  | prereq (pending : List π)
  | numpyError
  deriving DecidableEq

/-- `SliceBuilder.__call__` on a `DataPanel`: check prerequisites first, then
`prepare_dataset(dp, columns, batch_size)`, then `process_dataset(dp, columns,
num_proc)` — note the source passes no `batch_size` to `process_dataset`, so
the transformation pass runs at the default batch size 32.  The builder's
`process_batch` may depend on the state accumulated during preparation. -/
def sliceBuilderCall (prereqs : List π) (avail : π → List ρ → Bool)
    (pb : τ → List ρ → Option τ) (st : τ) (k : Nat)
    (f : τ → List ρ → List (List σ) × Option Mat)
    (dp : List ρ) (batch_size : Nat) : Except (CallErr π) (List (List σ) × Mat) :=
  match pendingPrereqs prereqs avail dp with
  | [] =>
    match process_dataset k (f (prepare_dataset pb st dp batch_size)) dp 32 with
    | none => .error .numpyError
    | some out => .ok out
  | p :: ps => .error (.prereq (p :: ps))

/-- The batch contract of §4.3 as written: `process_batch` returns exactly
`num_slices` sub-batches, and a membership submatrix of shape
`(len(batch), num_slices)`. -/
def ContractHonoring (k : Nat) (f : List ρ → List (List σ) × Option Mat) : Prop :=
  ∀ b, ((f b).1).length = k ∧
    ∃ rows, (f b).2 = some ⟨rows, k⟩ ∧ rows.length = b.length ∧
      ∀ r ∈ rows, r.length = k

/-- `itertools.compress(v, s)`: the elements of `v` whose flag in `s` is true,
in order, stopping when either sequence is exhausted. -/
def compress (v : List ρ) (s : List Bool) : List ρ :=
  (v.zip s).filterMap (fun p => if p.2 then some p.1 else none)

/-- Iterating over `m.T` in numpy: one list per column `j < ncols`, holding the
rows' `j`-th entries. -/
def npT (m : Mat) : List (List Bool) :=
  (List.range m.ncols).map (fun j => m.rows.map (fun r => r.getD j false))

/-- `SliceBuilder.filter_batch_by_slice_membership`: for each column `s` of the
membership matrix, keep in every column of the batch the entries compressed by
`s`.  A columnar batch is an ordered association of column names to value
lists. -/
def filter_batch_by_slice_membership (batch : List (String × List ρ)) (m : Mat) :
    List (List (String × List ρ)) :=
  (npT m).map (fun s => batch.map (fun cv => (cv.1, compress cv.2 s)))

/-- Spec-side description of slice `j`'s rows: the elements of `v` standing at
positions whose membership-matrix row has a true `j`-th entry, in original
relative order. -/
def membership_selected_rows (v : List ρ) (mrows : List (List Bool)) (j : Nat) : List ρ :=
  (v.zip mrows).filterMap (fun p => if p.2.getD j false then some p.1 else none)

/-- Python dict lookup `d[key]` on an ordered mapping, `none` on `KeyError`. -/
def dictGet (d : List (String × ε)) (key : String) : Option ε :=
  (d.find? (fun kv => kv.1 == key)).map (fun kv => kv.2)

/-- One cache entry of the dataset: identifier-string to column-set-key to
encoded artifact, as an ordered mapping of ordered mappings. -/
abbrev CacheEntry (ε : Type) := List (String × List (String × ε))

/-- `cache[str(identifier)][column_set_key]`, `none` on the first `KeyError`. -/
def cacheLookup (c : CacheEntry ε) (idStr key : String) : Option ε :=
  (dictGet c idStr).bind (fun inner => dictGet inner key)

/-- The list comprehension `[cls.decode(cache[id][key]) for cache in
batch["cache"]]` before decoding: `none` as soon as one cache entry misses a
key. -/
def lookupColumnKey (idStr key : String) : List (CacheEntry ε) → Option (List ε)
  | [] => some []
  | c :: cs =>
    match cacheLookup c idStr key with
    | none => none
    | some v =>
      match lookupColumnKey idStr key cs with
      | none => none
      | some vs => some (v :: vs)

/-- The retrieval dictionary built by `retrieve`: one entry per requested
column-set key, each holding the decoded values gathered across all cache
entries; `none` if any key is missing anywhere. -/
def lookupAllKeys (decode : ε → ι) (caches : List (CacheEntry ε)) (idStr : String) :
    List String → Option (List (String × List ι))
  | [] => some []
  | key :: rest =>
    match lookupColumnKey idStr key caches with
    | none => none
    | some vs =>
      match lookupAllKeys decode caches idStr rest with
      | none => none
      | some out => some ((key, vs.map decode) :: out)

/-- The part of a `DataPanel` that `retrieve` reads: the optional `slices`
column (one list of identifier keys per example) and the `cache` column (one
cache entry per example).  A dataset that was never processed carries neither;
the code tests only for the `slices` column. -/
structure RBatch (ε : Type) where
  slices : Option (List (List String))
  cache : List (CacheEntry ε)

/-- Failures `retrieve` can raise: the generic
`ValueError("Could not retrieve information for all keys.")` and the
`IndexError` of `batch["slices"][0]` on an empty column. -/
inductive RErr where
  | valueError (msg : String)
  | indexError
  deriving DecidableEq

/-- Identifier inference when none is supplied: scan the keys of the first
element of the `slices` column and pick the first one whose name starts with
the class name; if the scan finds nothing the Python variable stays `None` and
`str(identifier)` later produces the string `"None"`. -/
def inferIdentifier (clsName : String) (slicesCol : List (List String)) : Except RErr String :=
  match slicesCol with
  | [] => .error .indexError
  | keys0 :: _ =>
    match keys0.find? (fun key => key.startsWith clsName) with
    | some key => .ok key
    | none => .ok "None"

/-- The column-set keys a `retrieve` call asks for: a single key
`strings_as_json(columns)` when `columns` is one list of column names
(`isinstance(columns[0], str)`), one key per column-set otherwise.
`encodeCols` stands for `strings_as_json`. -/
def requestedKeys (encodeCols : List String → String) :
    Sum (List String) (List (List String)) → List String
  | .inl cols => [encodeCols cols]
  | .inr sets => sets.map encodeCols

/-- The `columns` argument is non-empty; `retrieve` evaluates `columns[0]`,
which raises `IndexError` on an empty list, so the model covers only non-empty
arguments. -/
def columnsNonempty : Sum (List String) (List (List String)) → Prop
  | .inl cols => cols ≠ []
  | .inr sets => sets ≠ []

/-- `SliceBuilder.retrieve`.  With `reapply=True` every branch of the body is
skipped (`else: pass`) and the function falls through to return `None`.
Otherwise: absent `slices` column returns `None`; the identifier is taken or
inferred; every requested key is looked up in every cache entry, any
`KeyError` collapsing into the one generic `ValueError`; with processing
functions supplied the code falls through to return `None`, otherwise the
retrieval mapping is returned. -/
def retrieve (clsName : String) (encodeCols : List String → String) (decode : ε → ι)
    (batch : RBatch ε) (columns : Sum (List String) (List (List String)))
    (proc_fns : Bool) (identifier : Option String) (reapply : Bool) :
    Except RErr (Option (List (String × List ι))) :=
  if reapply then .ok none
  else
    match batch.slices with
    | none => .ok none
    | some slicesCol =>
      match (match identifier with
             | some s => Except.ok s
             | none => inferIdentifier clsName slicesCol) with
      | .error e => .error e
      | .ok idStr =>
        match lookupAllKeys decode batch.cache idStr (requestedKeys encodeCols columns) with
        | none => .error (.valueError "Could not retrieve information for all keys.")
        | some retrieval => if proc_fns then .ok none else .ok (some retrieval)

/-- A missing cache key during retrieval, in the claim's two forms: for some
requested column-set key and some cache entry, either the identifier itself is
absent from the entry, or the identifier is present but the column-set key is
absent from its inner mapping. -/
def KeyMissing (caches : List (CacheEntry ε)) (idStr : String) (keys : List String) : Prop :=
  ∃ key ∈ keys, ∃ c ∈ caches,
    dictGet c idStr = none ∨
      ∃ inner, dictGet c idStr = some inner ∧ dictGet inner key = none

/-! ### Helper lemmas -/

theorem batchChunksAux_flatten (bs : Nat) (_hbs : 0 < bs) :
    ∀ (fuel : Nat) (l : List ρ), l.length ≤ fuel →
      (batchChunksAux bs fuel l).flatten = l := by
  intro fuel
  induction fuel with
  | zero =>
    intro l hl
    cases l with
    | nil => rfl
    | cons x xs => simp at hl
  | succ n ih =>
    intro l hl
    cases l with
    | nil => rfl
    | cons x xs =>
      have hx : (xs.drop (bs - 1)).length ≤ n := by
        simp only [List.length_drop]
        simp only [List.length_cons] at hl
        omega
      simp only [batchChunksAux, List.flatten_cons, ih (xs.drop (bs - 1)) hx,
        List.cons_append, List.take_append_drop]

theorem dpBatch_flatten (bs : Nat) (hbs : 0 < bs) (l : List ρ) :
    (dpBatch bs l).flatten = l :=
  batchChunksAux_flatten bs hbs l.length l le_rfl

theorem dpBatch_ne_nil (bs : Nat) (l : List ρ) (hl : l ≠ []) :
    dpBatch bs l ≠ [] := by
  cases l with
  | nil => exact absurd rfl hl
  | cons x xs => simp [dpBatch, batchChunksAux]

theorem appendStep_getElem? (acc : List (List (List σ))) (r : List (List σ)) (j : Nat) :
    (appendStep acc r)[j]? = acc[j]?.map (fun a => a ++ r[j]?.toList) := by
  induction acc generalizing r j with
  | nil => cases r <;> simp [appendStep]
  | cons a acc ih =>
    cases r with
    | nil => cases j <;> simp [appendStep]
    | cons b bl =>
      cases j with
      | zero => simp [appendStep]
      | succ n => simp [appendStep, ih]

theorem foldl_appendStep_length (rs : List (List (List σ)))
    (acc : List (List (List σ))) : (rs.foldl appendStep acc).length = acc.length := by
  induction rs generalizing acc with
  | nil => rfl
  | cons r rs ih =>
    have hs : (appendStep acc r).length = acc.length := by
      induction acc generalizing r with
      | nil => cases r <;> rfl
      | cons a acc ihs =>
        cases r with
        | nil => rfl
        | cons b bl => simp [appendStep, ihs]
    rw [List.foldl_cons, ih, hs]

theorem foldl_appendStep_getElem? (rs : List (List (List σ)))
    (acc : List (List (List σ))) (j : Nat) :
    (rs.foldl appendStep acc)[j]? =
      acc[j]?.map (fun a => a ++ rs.filterMap (fun r => r[j]?)) := by
  induction rs generalizing acc with
  | nil => simp
  | cons r rs ih =>
    rw [List.foldl_cons, ih, appendStep_getElem?, Option.map_map]
    apply congrArg (fun g => Option.map g acc[j]?)
    funext a
    cases h : r[j]? with
    | none => simp [List.filterMap_cons, h]
    | some b => simp [List.filterMap_cons, h]

theorem npConcatRows_map_some (L : List Mat) (k : Nat) (hne : L ≠ [])
    (hc : ∀ mm ∈ L, mm.ncols = k) :
    npConcatRows (L.map some) = some ⟨(L.map Mat.rows).flatten, k⟩ := by
  have h1 : (L.map some).any (fun m => m.isNone) = false := by
    simp
  have h2 : (L.map some).filterMap id = L := by
    rw [List.filterMap_map]
    have h3 : (id ∘ some : Mat → Option Mat) = some ∘ id := rfl
    rw [h3, List.filterMap_eq_map, List.map_id]
  cases L with
  | nil => exact absurd rfl hne
  | cons m0 rest =>
    have hall : rest.all (fun mm => mm.ncols == k) = true := by
      rw [List.all_eq_true]
      intro mm hm
      have hk : mm.ncols = k := hc mm (List.mem_cons_of_mem m0 hm)
      simp [hk]
    have hk0 : m0.ncols = k := hc m0 (List.mem_cons_self m0 rest)
    simp only [npConcatRows, h1, Bool.false_eq_true, if_false, h2, hk0, hall, if_true]

theorem filterMap_getElem?_eq_map (rs : List (List (List σ))) (j : Nat)
    (h : ∀ r ∈ rs, j < r.length) :
    rs.filterMap (fun r => r[j]?) = rs.map (fun r => r.getD j []) := by
  induction rs with
  | nil => rfl
  | cons r rs ih =>
    have hj : r[j]? = some (r.getD j []) := by
      rw [List.getElem?_eq_getElem (h r (List.mem_cons_self r rs))]
      simp [List.getD_eq_getElem?_getD, List.getElem?_eq_getElem (h r (List.mem_cons_self r rs))]
    rw [List.filterMap_cons, hj, List.map_cons, ih (fun r hr => h r (List.mem_cons_of_mem _ hr))]

theorem flatten_map_singleton (L : List ρ) :
    (L.map (fun b => ([b] : List ρ))).flatten = L := by
  induction L with
  | nil => rfl
  | cons x xs ih => simp [ih]

/-- Characterization of a run of `process_dataset` when every batch produces a
membership submatrix with `k` columns: the run succeeds, the final matrix
stacks the per-batch membership rows in batch order, and the slices are the
zip-append accumulators, concatenated. -/
theorem process_dataset_eq (k bs : Nat) (f : List ρ → List (List σ) × Option Mat)
    (M : List ρ → Mat) (dp : List ρ) (hdp : dp ≠ [])
    (h2 : ∀ b, (f b).2 = some (M b)) (hMc : ∀ b, (M b).ncols = k) :
    process_dataset k f dp bs =
      some ((((dpBatch bs dp).map (fun b => (f b).1)).foldl appendStep
        (List.replicate k [([] : List σ)])).map List.flatten,
        ⟨((dpBatch bs dp).map (fun b => (M b).rows)).flatten, k⟩) := by
  unfold process_dataset
  dsimp only
  have hms : ((dpBatch bs dp).map f).map (fun r => r.2) = ((dpBatch bs dp).map M).map some := by
    rw [List.map_map, List.map_map]
    exact List.map_congr_left (fun b _ => h2 b)
  have hne : (dpBatch bs dp).map M ≠ [] := by
    intro hcon
    exact dpBatch_ne_nil bs dp hdp (List.map_eq_nil_iff.mp hcon)
  have hcc : ∀ mm ∈ (dpBatch bs dp).map M, mm.ncols = k := by
    intro mm hm
    rcases List.mem_map.mp hm with ⟨b, _, rfl⟩
    exact hMc b
  rw [hms, npConcatRows_map_some ((dpBatch bs dp).map M) k hne hcc]
  rw [List.map_map, List.map_map]
  rfl

/-- `process_dataset` on an empty dataset: no batches are produced, and
`np.concatenate` on an empty list raises (modelled as `none`). -/
theorem process_dataset_nil (k : Nat) (f : List ρ → List (List σ) × Option Mat)
    (bs : Nat) : process_dataset k f ([] : List ρ) bs = none := rfl

/-- Evaluation of `process_dataset` for a pointwise builder: slice `j` is the
`filterMap` of the whole dataset by the per-example choice `s j`, and the
membership matrix maps `g` over the whole dataset — independently of the batch
size. -/
theorem process_dataset_pointwise_eval (k bs : Nat) (hbs : 0 < bs)
    (f : List ρ → List (List σ) × Option Mat) (g : ρ → List Bool)
    (s : Nat → ρ → Option σ) (dp : List ρ) (hdp : dp ≠ [])
    (hf1 : ∀ b, (f b).1 = (List.range k).map (fun j => b.filterMap (s j)))
    (hf2 : ∀ b, (f b).2 = some ⟨b.map g, k⟩) :
    process_dataset k f dp bs =
      some ((List.range k).map (fun j => dp.filterMap (s j)),
        ⟨dp.map g, k⟩) := by
  rw [process_dataset_eq k bs f (fun b => ⟨b.map g, k⟩) dp hdp hf2 (fun b => rfl)]
  have hrows : ((dpBatch bs dp).map (fun b => List.map g b)).flatten = dp.map g := by
    rw [← List.map_flatten, dpBatch_flatten bs hbs]
  have hsl : (((dpBatch bs dp).map (fun b => (f b).1)).foldl appendStep
      (List.replicate k [([] : List σ)])).map List.flatten =
      (List.range k).map (fun j => dp.filterMap (s j)) := by
    apply List.ext_getElem?
    intro j
    rw [List.getElem?_map, foldl_appendStep_getElem?]
    by_cases hj : j < k
    · have hlen : ∀ r ∈ (dpBatch bs dp).map (fun b => (f b).1), j < r.length := by
        intro r hr
        rcases List.mem_map.mp hr with ⟨b, _, rfl⟩
        rw [hf1 b, List.length_map, List.length_range]
        exact hj
      have hgd : ((fun r => r.getD j []) ∘ fun b => ((f b).1 : List (List σ))) =
          (fun b => b.filterMap (s j)) := by
        funext b
        show ((f b).1).getD j [] = b.filterMap (s j)
        rw [hf1 b, List.getD_eq_getElem?_getD, List.getElem?_map, List.getElem?_range hj]
        rfl
      rw [List.getElem?_replicate, if_pos hj,
        filterMap_getElem?_eq_map _ j hlen, List.map_map, hgd,
        List.getElem?_map, List.getElem?_range hj]
      simp only [Option.map_some']
      congr 1
      show (([] : List σ) :: (dpBatch bs dp).map (fun b => b.filterMap (s j))).flatten = _
      rw [List.flatten_cons, List.nil_append, ← List.filterMap_flatten,
        dpBatch_flatten bs hbs]
    · rw [List.getElem?_replicate, if_neg hj, List.getElem?_map,
        List.getElem?_eq_none (by rw [List.length_range]; omega)]
      rfl
  dsimp only
  rw [hrows, hsl]

/-! ### Sample builders used in witnesses and counterexamples -/

/-- A contract-honoring single-slice builder: the whole batch as the one slice,
with an all-true one-column membership submatrix. -/
def allTrueBatchFn (b : List Nat) : List (List Nat) × Option Mat :=
  ([b], some ⟨b.map (fun _ => [true]), 1⟩)

/-- A membership submatrix marking only the first row of the batch: it has the
contractual shape `(len(batch), 1)` and is in input row order, but the value of
each row depends on where the batch boundary falls. -/
def firstRowMembership (b : List ρ) : List (List Bool) :=
  (List.range b.length).map (fun i => [decide (i = 0)])

/-- A single-slice builder whose membership depends on batch boundaries while
still honoring the shape part of the batch contract. -/
def firstRowBatchFn (b : List Nat) : List (List Nat) × Option Mat :=
  ([b], some ⟨firstRowMembership b, 1⟩)

/-- A pointwise single-slice identity builder written in the normal form of
`process_dataset_pointwise_eval`. -/
def pointwiseIdBatchFn (b : List Nat) : List (List Nat) × Option Mat :=
  ((List.range 1).map (fun _j => b.filterMap (fun x => some x)),
    some ⟨b.map (fun _ => [true]), 1⟩)

/-- A single-slice builder that records each processed batch as one row of its
slice, used to observe which batches the transformation pass consumed. -/
def recordingBatchFn (b : List Nat) : List (List (List Nat)) × Option Mat :=
  ([[b]], some ⟨b.map (fun _ => [true]), 1⟩)

/-! ### Claims -/

/-- C1: For every dataset, column list and positive batch size, and every
builder whose `process_batch` honors the batch contract — `num_slices`
sub-batches per batch (`h1`) and a `(len(batch), num_slices)` membership
submatrix in input row order, i.e. one membership row `g r` per input row `r`
at the same position (`h2`) — row `i` of the membership matrix returned by
`process_dataset` is the membership row of example `i` of the original
dataset, for every valid `i`, and each final slice is the concatenation of its
per-batch sub-batches in original dataset order.  The `columns` argument is
closed over by `f`, and the `num_proc` argument is unused by the source's
loop, which is sequential, so neither appears. -/
theorem process_dataset_rows_align (k bs : Nat) (hbs : 0 < bs)
    (f : List ρ → List (List σ) × Option Mat) (g : ρ → List Bool) (dp : List ρ)
    (h1 : ∀ b, ((f b).1).length = k)
    (h2 : ∀ b, (f b).2 = some ⟨b.map g, k⟩)
    (sl : List (List σ)) (m : Mat)
    (hres : process_dataset k f dp bs = some (sl, m)) :
    (∀ i (hi : i < dp.length), m.rows[i]? = some (g (dp.get ⟨i, hi⟩))) ∧
    (∀ j, j < k →
      sl[j]? = some (((dpBatch bs dp).map (fun b => ((f b).1).getD j [])).flatten)) := by
  by_cases hdp : dp = []
  · subst hdp
    rw [process_dataset_nil] at hres
    exact absurd hres (by simp)
  · rw [process_dataset_eq k bs f (fun b => ⟨b.map g, k⟩) dp hdp h2 (fun b => rfl)] at hres
    have hm : m = ⟨((dpBatch bs dp).map (fun b => List.map g b)).flatten, k⟩ := by
      have := congrArg (fun o => Option.map Prod.snd o) hres
      simpa using this.symm
    have hsl : sl = (((dpBatch bs dp).map (fun b => (f b).1)).foldl appendStep
        (List.replicate k [([] : List σ)])).map List.flatten := by
      have := congrArg (fun o => Option.map Prod.fst o) hres
      simpa using this.symm
    constructor
    · intro i hi
      rw [hm]
      show (((dpBatch bs dp).map (fun b => List.map g b)).flatten)[i]? = _
      rw [← List.map_flatten, dpBatch_flatten bs hbs, List.getElem?_map,
        List.getElem?_eq_getElem hi]
      simp [List.get_eq_getElem]
    · intro j hj
      rw [hsl, List.getElem?_map, foldl_appendStep_getElem?,
        List.getElem?_replicate, if_pos hj]
      have hlen : ∀ r ∈ (dpBatch bs dp).map (fun b => (f b).1), j < r.length := by
        intro r hr
        rcases List.mem_map.mp hr with ⟨b, _, rfl⟩
        rw [h1 b]
        exact hj
      rw [filterMap_getElem?_eq_map _ j hlen, List.map_map]
      simp only [Option.map_some']
      congr 1

/-- C1 witness: a one-slice all-true builder over a 3-example dataset at batch
size 2. -/
theorem process_dataset_rows_align_witness :
    (Mat.mk [[true], [true], [true]] 1).rows[1]? = some [true] ∧
    ([[(10 : Nat), 20, 30]] : List (List Nat))[0]? =
      some (((dpBatch 2 [(10 : Nat), 20, 30]).map
        (fun b => ((allTrueBatchFn b).1).getD 0 [])).flatten) := by
  have h := process_dataset_rows_align 1 2 (by decide) allTrueBatchFn
    (fun _ => [true]) [10, 20, 30] (fun b => rfl) (fun b => rfl)
    [[10, 20, 30]] ⟨[[true], [true], [true]], 1⟩ rfl
  exact ⟨h.1 1 (by decide), h.2 0 (by decide)⟩

/-- C2 counterexample: on the empty dataset (a dataset size the claim
quantifies over), `process_dataset` produces no batches, so
`np.concatenate([])` raises and no slices or membership matrix are returned,
even for a contract-honoring builder. -/
theorem process_dataset_empty_dataset_fails :
    ContractHonoring 1 allTrueBatchFn ∧
    process_dataset 1 allTrueBatchFn ([] : List Nat) 3 = none := by
  constructor
  · intro b
    refine ⟨rfl, b.map (fun _ => [true]), rfl, by simp, ?_⟩
    intro r hr
    rcases List.mem_map.mp hr with ⟨a, _, rfl⟩
    rfl
  · rfl

/-- C2 (amended): for every builder with `k` identifiers, every NON-EMPTY
dataset and every positive batch size, `process_dataset` returns exactly `k`
slices and a membership matrix with exactly `k` columns (and one row per
example), assuming each `process_batch` call returns `k` sub-batches and a
submatrix of shape `(len(batch), k)`. -/
theorem process_dataset_slice_and_column_counts (k bs : Nat) (hbs : 0 < bs)
    (f : List ρ → List (List σ) × Option Mat) (M : List ρ → Mat) (dp : List ρ)
    (hdp : dp ≠ [])
    (_h1 : ∀ b, ((f b).1).length = k)
    (h2 : ∀ b, (f b).2 = some (M b))
    (hMc : ∀ b, (M b).ncols = k)
    (hMr : ∀ b, (M b).rows.length = b.length) :
    ∃ sl m, process_dataset k f dp bs = some (sl, m) ∧
      sl.length = k ∧ m.ncols = k ∧ m.rows.length = dp.length := by
  refine ⟨_, _, process_dataset_eq k bs f M dp hdp h2 hMc, ?_, rfl, ?_⟩
  · rw [List.length_map, foldl_appendStep_length, List.length_replicate]
  · show (((dpBatch bs dp).map (fun b => (M b).rows)).flatten).length = dp.length
    rw [List.length_flatten, List.map_map]
    have h5 : (dpBatch bs dp).map (List.length ∘ fun b => (M b).rows) =
        (dpBatch bs dp).map List.length :=
      List.map_congr_left (fun b _ => hMr b)
    rw [h5, ← List.length_flatten, dpBatch_flatten bs hbs]

/-- C2 witness: the all-true one-slice builder on a 3-example dataset at batch
size 2. -/
theorem process_dataset_slice_and_column_counts_witness :
    ∃ sl m, process_dataset 1 allTrueBatchFn [(1 : Nat), 2, 3] 2 = some (sl, m) ∧
      sl.length = 1 ∧ m.ncols = 1 ∧ m.rows.length = 3 :=
  process_dataset_slice_and_column_counts 1 2 (by decide) allTrueBatchFn
    (fun b => ⟨b.map (fun _ => [true]), 1⟩) [1, 2, 3] (by decide)
    (fun b => rfl) (fun b => rfl) (fun b => rfl) (fun b => by simp)

/-- C3 counterexample: a builder that honors the §4.3 batch contract exactly
as written (one sub-batch, a `(len(batch), 1)` submatrix in input row order)
but whose membership marks the first row of each batch.  Over the dataset
`[10, 20]` the batch sizes 1 and 2 give different membership matrices, so the
claim as stated is false. -/
theorem process_dataset_batch_size_observable :
    ContractHonoring 1 firstRowBatchFn ∧ (1 : Nat) ≠ 2 ∧
    process_dataset 1 firstRowBatchFn [(10 : Nat), 20] 1 ≠
      process_dataset 1 firstRowBatchFn [(10 : Nat), 20] 2 := by
  refine ⟨?_, by decide, by decide⟩
  intro b
  refine ⟨rfl, firstRowMembership b, rfl, by simp [firstRowMembership], ?_⟩
  intro r hr
  rcases List.mem_map.mp hr with ⟨i, _, rfl⟩
  rfl

/-- C3 (amended): for every builder whose `process_batch` works
example-by-example — slice `j` keeps, per example, an optional transformed row
`s j`, and the membership row of each example is a function `g` of that
example alone — `process_dataset` over the same dataset produces identical
final slices and an identical membership matrix under any two positive batch
sizes.  (A builder that honors only the shape-and-row-order contract can still
let membership depend on batch boundaries, and then the batch size is
observable: see the counterexample.) -/
theorem process_dataset_batch_size_invariant (k b1 b2 : Nat)
    (hb1 : 0 < b1) (hb2 : 0 < b2)
    (f : List ρ → List (List σ) × Option Mat) (g : ρ → List Bool)
    (s : Nat → ρ → Option σ) (dp : List ρ)
    (hf1 : ∀ b, (f b).1 = (List.range k).map (fun j => b.filterMap (s j)))
    (hf2 : ∀ b, (f b).2 = some ⟨b.map g, k⟩) :
    process_dataset k f dp b1 = process_dataset k f dp b2 := by
  by_cases hdp : dp = []
  · subst hdp
    rw [process_dataset_nil, process_dataset_nil]
  · rw [process_dataset_pointwise_eval k b1 hb1 f g s dp hdp hf1 hf2,
      process_dataset_pointwise_eval k b2 hb2 f g s dp hdp hf1 hf2]

/-- C3 witness: the pointwise identity builder over `[5, 6, 7]` at batch sizes
1 and 2. -/
theorem process_dataset_batch_size_invariant_witness :
    process_dataset 1 pointwiseIdBatchFn [(5 : Nat), 6, 7] 1 =
      process_dataset 1 pointwiseIdBatchFn [(5 : Nat), 6, 7] 2 :=
  process_dataset_batch_size_invariant 1 1 2 (by decide) (by decide)
    pointwiseIdBatchFn (fun _ => [true]) (fun _j x => some x) [5, 6, 7]
    (fun b => rfl) (fun b => rfl)

/-- C4: for every columnar batch whose columns all have length `n` and every
boolean membership matrix with `n` rows (each of width `ncols`),
`filter_batch_by_slice_membership` returns one filtered batch per matrix
column, and filtered batch `j` keeps, in every column, exactly the rows whose
membership row has a true `j`-th entry, in original relative order. -/
theorem filter_batch_by_slice_membership_spec (batch : List (String × List ρ))
    (m : Mat) (n : Nat)
    (_hrows : m.rows.length = n)
    (_hrect : ∀ r ∈ m.rows, r.length = m.ncols)
    (_hcols : ∀ cv ∈ batch, cv.2.length = n) :
    (filter_batch_by_slice_membership batch m).length = m.ncols ∧
    ∀ j, j < m.ncols →
      (filter_batch_by_slice_membership batch m)[j]? =
        some (batch.map (fun cv => (cv.1, membership_selected_rows cv.2 m.rows j))) := by
  constructor
  · simp [filter_batch_by_slice_membership, npT]
  · intro j hj
    unfold filter_batch_by_slice_membership npT
    rw [List.getElem?_map, List.getElem?_map, List.getElem?_range hj]
    simp only [Option.map_some']
    congr 1
    apply List.map_congr_left
    intro cv _
    congr 1
    unfold compress membership_selected_rows
    rw [List.zip_map_right, List.filterMap_map]
    rfl

/-- C4 witness: a one-column batch of three rows and a `(3, 1)` membership
matrix selecting rows 0 and 2. -/
theorem filter_batch_by_slice_membership_spec_witness :
    (filter_batch_by_slice_membership [("a", [(1 : Nat), 2, 3])]
      ⟨[[true], [false], [true]], 1⟩).length = 1 ∧
    (filter_batch_by_slice_membership [("a", [(1 : Nat), 2, 3])]
      ⟨[[true], [false], [true]], 1⟩)[0]? = some [("a", [1, 3])] := by
  have h := filter_batch_by_slice_membership_spec [("a", [(1 : Nat), 2, 3])]
    ⟨[[true], [false], [true]], 1⟩ 3 rfl (by decide) (by decide)
  refine ⟨h.1, ?_⟩
  rw [h.2 0 (by decide)]
  rfl

/-- C5 (evidence for `code_bug`): invoking the identity builder (one
identifier, the default `process_batch`) on a 5-example dataset with batch
size 2 does NOT return a slice: every batch contributes `None` in place of a
membership submatrix, and `np.concatenate` over a list of `None`s raises
`ValueError` (zero-dimensional arrays cannot be concatenated), aborting the
call.  The claim (and §4.3/§8 of the spec) describes the intended behaviour:
one slice equal to the dataset and no matrix. -/
theorem identity_builder_call_crashes :
    sliceBuilderCall ([] : List Unit) (fun _ _ => true) (fun (_ : Unit) _ => none) ()
      1 (fun _ b => process_batch_default b) ([10, 20, 30, 40, 50] : List Nat) 2 =
      .error .numpyError := rfl

/-- C5 companion fact: the transformation pass alone also raises on this
input, whatever batch size is used, because the default `process_batch`
returns no membership submatrix. -/
theorem identity_builder_process_dataset_crashes :
    process_dataset 1 (fun b => process_batch_default b)
      ([10, 20, 30, 40, 50] : List Nat) 2 = none := rfl

/-- C6: whenever at least one declared prerequisite reports unavailable on the
dataset, the top-level call fails with the unmet-prerequisite error carrying
exactly the unsatisfied prerequisites, and the result does not depend on the
preparation hook, the prepared state, the number of slices, the builder's
`process_batch` or the batch size — those are never invoked. -/
theorem call_with_unmet_prereq_raises (prereqs : List π)
    (avail : π → List ρ → Bool) (dp : List ρ)
    (h : ∃ p ∈ prereqs, avail p dp = false)
    (pb : τ → List ρ → Option τ) (st : τ) (k : Nat)
    (f : τ → List ρ → List (List σ) × Option Mat) (batch_size : Nat) :
    sliceBuilderCall prereqs avail pb st k f dp batch_size =
      .error (.prereq (pendingPrereqs prereqs avail dp)) ∧
    ∀ q, q ∈ pendingPrereqs prereqs avail dp ↔ (q ∈ prereqs ∧ avail q dp = false) := by
  have hne : pendingPrereqs prereqs avail dp ≠ [] := by
    rcases h with ⟨p, hp, hpa⟩
    intro hcon
    have hmem : p ∈ pendingPrereqs prereqs avail dp := by
      simp [pendingPrereqs, List.mem_filter, hp, hpa]
    rw [hcon] at hmem
    exact absurd hmem (List.not_mem_nil p)
  constructor
  · cases hpp : pendingPrereqs prereqs avail dp with
    | nil => exact absurd hpp hne
    | cons p ps => simp [sliceBuilderCall, hpp]
  · intro q
    simp [pendingPrereqs, List.mem_filter]

/-- C6 witness: prerequisite `1` is unavailable on the dataset `[9]`, so the
call errors with pending list `[1]`. -/
theorem call_with_unmet_prereq_raises_witness :
    sliceBuilderCall [(0 : Nat), 1] (fun p _ => p == 0) (fun (_ : Unit) _ => none) ()
      1 (fun _ b => process_batch_default b) ([9] : List Nat) 7 =
      .error (.prereq (pendingPrereqs [(0 : Nat), 1] (fun p _ => p == 0) ([9] : List Nat))) ∧
    pendingPrereqs [(0 : Nat), 1] (fun p _ => p == 0) ([9] : List Nat) = [1] :=
  ⟨(call_with_unmet_prereq_raises [(0 : Nat), 1] (fun p _ => p == 0) ([9] : List Nat)
      ⟨1, by decide, by decide⟩ (fun (_ : Unit) _ => none) () 1
      (fun _ b => process_batch_default b) 7).1, by decide⟩

/-- C7: `retrieve` on a dataset that carries no cache data (the `slices`
column is absent) returns the absent value, not an error, for every
identifier, every column-set argument (single or batched), every processing
functions flag, and whatever sits in the cache column. -/
theorem retrieve_no_cache_data_returns_none (clsName : String)
    (encodeCols : List String → String) (decode : ε → ι) (batch : RBatch ε)
    (columns : Sum (List String) (List (List String)))
    (proc_fns : Bool) (identifier : Option String)
    (hsl : batch.slices = none) :
    retrieve clsName encodeCols decode batch columns proc_fns identifier false =
      .ok none := by
  simp [retrieve, hsl]

/-- C7 witness. -/
theorem retrieve_no_cache_data_returns_none_witness :
    retrieve "TestBuilder" (fun _ => "k") (fun n : Nat => n) ⟨none, []⟩
      (.inl ["a"]) false none false = .ok none :=
  retrieve_no_cache_data_returns_none "TestBuilder" (fun _ => "k")
    (fun n : Nat => n) ⟨none, []⟩ (.inl ["a"]) false none rfl

theorem cacheLookup_eq_none_iff (c : CacheEntry ε) (idStr key : String) :
    cacheLookup c idStr key = none ↔
      (dictGet c idStr = none ∨
        ∃ inner, dictGet c idStr = some inner ∧ dictGet inner key = none) := by
  cases h : dictGet c idStr with
  | none => simp [cacheLookup, h]
  | some inner => simp [cacheLookup, h]

theorem lookupColumnKey_eq_none_iff (idStr key : String)
    (caches : List (CacheEntry ε)) :
    lookupColumnKey idStr key caches = none ↔
      ∃ c ∈ caches, cacheLookup c idStr key = none := by
  induction caches with
  | nil => simp [lookupColumnKey]
  | cons c cs ih =>
    constructor
    · intro hl
      unfold lookupColumnKey at hl
      cases h : cacheLookup c idStr key with
      | none => exact ⟨c, List.mem_cons_self c cs, h⟩
      | some v =>
        rw [h] at hl
        cases h2 : lookupColumnKey idStr key cs with
        | none =>
          rcases ih.mp h2 with ⟨c2, hc2, hn⟩
          exact ⟨c2, List.mem_cons_of_mem c hc2, hn⟩
        | some vs =>
          rw [h2] at hl
          exact absurd hl (by simp)
    · rintro ⟨c2, hc2, hn⟩
      rcases List.mem_cons.mp hc2 with rfl | hc2
      · unfold lookupColumnKey
        rw [hn]
      · unfold lookupColumnKey
        cases h : cacheLookup c idStr key with
        | none => rfl
        | some v => rw [ih.mpr ⟨c2, hc2, hn⟩]

theorem lookupAllKeys_eq_none_iff (decode : ε → ι) (caches : List (CacheEntry ε))
    (idStr : String) (keys : List String) :
    lookupAllKeys decode caches idStr keys = none ↔
      ∃ key ∈ keys, lookupColumnKey idStr key caches = none := by
  induction keys with
  | nil => simp [lookupAllKeys]
  | cons key rest ih =>
    constructor
    · intro hl
      unfold lookupAllKeys at hl
      cases h : lookupColumnKey idStr key caches with
      | none => exact ⟨key, List.mem_cons_self key rest, h⟩
      | some vs =>
        rw [h] at hl
        cases h2 : lookupAllKeys decode caches idStr rest with
        | none =>
          rcases ih.mp h2 with ⟨k2, hk2, hn⟩
          exact ⟨k2, List.mem_cons_of_mem key hk2, hn⟩
        | some out =>
          rw [h2] at hl
          exact absurd hl (by simp)
    · rintro ⟨k2, hk2, hn⟩
      rcases List.mem_cons.mp hk2 with rfl | hk2
      · unfold lookupAllKeys
        rw [hn]
      · unfold lookupAllKeys
        cases h3 : lookupColumnKey idStr key caches with
        | none => rfl
        | some vs => rw [ih.mpr ⟨k2, hk2, hn⟩]

theorem lookupAllKeys_none_iff_KeyMissing (decode : ε → ι)
    (caches : List (CacheEntry ε)) (idStr : String) (keys : List String) :
    lookupAllKeys decode caches idStr keys = none ↔
      KeyMissing caches idStr keys := by
  rw [lookupAllKeys_eq_none_iff]
  unfold KeyMissing
  apply exists_congr
  intro key
  apply and_congr_right
  intro _
  rw [lookupColumnKey_eq_none_iff]
  apply exists_congr
  intro c
  apply and_congr_right
  intro _
  exact cacheLookup_eq_none_iff c idStr key

/-- C8: with `reapply=False`, cache data present (the `slices` column exists),
an explicitly supplied identifier and no processing functions, a retrieval —
single or batched — raises the one generic
`ValueError("Could not retrieve information for all keys.")` exactly when some
requested key is missing somewhere (the identifier absent from a cache entry,
or a column-set key absent from the identifier's inner mapping); the error
never identifies which key was missing.  Conversely, when every requested key
is present everywhere, no failure is raised and the retrieval mapping is
returned.  The `columns` argument is non-empty, as the source indexes
`columns[0]`. -/
theorem retrieve_missing_key_collapses (clsName : String)
    (encodeCols : List String → String) (decode : ε → ι) (batch : RBatch ε)
    (columns : Sum (List String) (List (List String))) (idStr : String)
    (sc : List (List String)) (hsl : batch.slices = some sc)
    (_hcols : columnsNonempty columns) :
    (retrieve clsName encodeCols decode batch columns false (some idStr) false =
        .error (.valueError "Could not retrieve information for all keys.") ↔
      KeyMissing batch.cache idStr (requestedKeys encodeCols columns)) ∧
    (¬ KeyMissing batch.cache idStr (requestedKeys encodeCols columns) →
      ∃ r, retrieve clsName encodeCols decode batch columns false (some idStr) false =
        .ok (some r)) := by
  have hret : retrieve clsName encodeCols decode batch columns false (some idStr) false =
      (match lookupAllKeys decode batch.cache idStr (requestedKeys encodeCols columns) with
       | none => .error (.valueError "Could not retrieve information for all keys.")
       | some retrieval => .ok (some retrieval)) := by
    simp [retrieve, hsl]
  cases hlk : lookupAllKeys decode batch.cache idStr (requestedKeys encodeCols columns) with
  | none =>
    rw [hret, hlk]
    have hkm : KeyMissing batch.cache idStr (requestedKeys encodeCols columns) :=
      (lookupAllKeys_none_iff_KeyMissing decode batch.cache idStr
        (requestedKeys encodeCols columns)).mp hlk
    exact ⟨⟨fun _ => hkm, fun _ => rfl⟩, fun hnm => absurd hkm hnm⟩
  | some r =>
    rw [hret, hlk]
    constructor
    · constructor
      · intro hcon
        exact absurd hcon (by simp)
      · intro hkm
        have := (lookupAllKeys_none_iff_KeyMissing decode batch.cache idStr
          (requestedKeys encodeCols columns)).mpr hkm
        rw [hlk] at this
        exact absurd this (by simp)
    · intro _
      exact ⟨r, rfl⟩

/-- C8 witness: one cache entry holding identifier `id1` with key `K`; the
single retrieval of the column set encoded as `K` succeeds, and the
failure-iff-missing equivalence holds. -/
theorem retrieve_missing_key_collapses_witness :
    (retrieve "X" (fun _ => "K") (fun n : Nat => n)
        ⟨some [["Xk"]], [[("id1", [("K", 5)])]]⟩ (.inl ["a"]) false (some "id1") false =
        .error (.valueError "Could not retrieve information for all keys.") ↔
      KeyMissing [[("id1", [("K", (5 : Nat))])]] "id1"
        (requestedKeys (fun _ => "K") (.inl ["a"]))) ∧
    (¬ KeyMissing [[("id1", [("K", (5 : Nat))])]] "id1"
        (requestedKeys (fun _ => "K") (.inl ["a"])) →
      ∃ r, retrieve "X" (fun _ => "K") (fun n : Nat => n)
        ⟨some [["Xk"]], [[("id1", [("K", 5)])]]⟩ (.inl ["a"]) false (some "id1") false =
        .ok (some r)) :=
  retrieve_missing_key_collapses "X" (fun _ => "K") (fun n : Nat => n)
    ⟨some [["Xk"]], [[("id1", [("K", 5)])]]⟩ (.inl ["a"]) "id1" [["Xk"]] rfl
    (by simp [columnsNonempty])

/-- C9 counterexample: a dataset whose cache holds a decodable value under the
requested key.  With `reapply=True` the call returns the absent value `None` —
nothing is recomputed and the cache is not consulted — although the same call
with `reapply=False` would have returned the cached value.  This contradicts
the claim that reapply mode returns a recomputed result rather than an absent
value: the base class's reapply branch is `pass` and falls through to return
`None`. -/
theorem retrieve_reapply_returns_absent :
    retrieve "X" (fun _ => "K") (fun n : Nat => n)
      ⟨some [["Xid"]], [[("Xid", [("K", 5)])]]⟩ (.inl ["a"]) false (some "Xid") true =
      .ok none ∧
    retrieve "X" (fun _ => "K") (fun n : Nat => n)
      ⟨some [["Xid"]], [[("Xid", [("K", 5)])]]⟩ (.inl ["a"]) false (some "Xid") false =
      .ok (some [("K", [5])]) :=
  ⟨rfl, rfl⟩

/-- C9 (amended): calling `retrieve` with `reapply=True` skips the entire
cache-read path and returns the absent value `None`, for every dataset,
column-set, identifier and processing-functions argument; it neither consults
the cache nor recomputes anything. -/
theorem retrieve_reapply_true_skips_everything (clsName : String)
    (encodeCols : List String → String) (decode : ε → ι) (batch : RBatch ε)
    (columns : Sum (List String) (List (List String))) (proc_fns : Bool)
    (identifier : Option String) :
    retrieve clsName encodeCols decode batch columns proc_fns identifier true =
      .ok none := rfl

theorem prepare_loop_records (batches : List (List ρ)) (acc : List (List ρ)) :
    prepare_loop (fun st b => some (st ++ [b])) acc batches = acc ++ batches := by
  induction batches generalizing acc with
  | nil => simp [prepare_loop]
  | cons b rest ih => simp [prepare_loop, ih]

/-- The transformation pass with a builder that records each batch it is given
as one row of its single slice: the recorded batches are exactly
`dpBatch 32 dp`. -/
theorem process_dataset_recording (dp : List Nat) (hdp : dp ≠ []) :
    process_dataset 1 (fun b => recordingBatchFn b) dp 32 =
      some ([dpBatch 32 dp], ⟨dp.map (fun _ => [true]), 1⟩) := by
  rw [process_dataset_eq 1 32 (fun b => recordingBatchFn b)
    (fun b => ⟨b.map (fun _ => [true]), 1⟩) dp hdp (fun b => rfl) (fun b => rfl)]
  have hrows : ((dpBatch 32 dp).map (fun b => List.map (fun _ => [true]) b)).flatten =
      dp.map (fun _ => [true]) := by
    rw [← List.map_flatten, dpBatch_flatten 32 (by omega)]
  have hsl : (((dpBatch 32 dp).map (fun b => ((fun b => recordingBatchFn b) b).1)).foldl
      appendStep (List.replicate 1 [([] : List (List Nat))])).map List.flatten =
      [dpBatch 32 dp] := by
    apply List.ext_getElem?
    intro j
    rw [List.getElem?_map, foldl_appendStep_getElem?]
    cases j with
    | zero =>
      have hlen : ∀ r ∈ (dpBatch 32 dp).map (fun b => ((fun b => recordingBatchFn b) b).1),
          0 < r.length := by
        intro r hr
        rcases List.mem_map.mp hr with ⟨b, _, rfl⟩
        simp [recordingBatchFn]
      rw [List.getElem?_replicate, if_pos (by decide : (0 : Nat) < 1),
        filterMap_getElem?_eq_map _ 0 hlen, List.map_map]
      simp only [Option.map_some']
      congr 1
      show (([] : List (List Nat)) :: (dpBatch 32 dp).map (fun b => [b])).flatten =
        dpBatch 32 dp
      rw [List.flatten_cons, List.nil_append]
      exact flatten_map_singleton (dpBatch 32 dp)
    | succ n =>
      rw [List.getElem?_replicate, if_neg (by omega)]
      rfl
  dsimp only
  rw [hrows, hsl]

/-- C10: the top-level call forwards its `batch_size` argument only to the
preparation pass; `process_dataset` is invoked without a `batch_size` argument
and therefore iterates the dataset in batches of its default size 32.
Observed with a recording builder: the slices returned by the call always list
the batches of size 32, for every caller-supplied `batch_size`, while the
preparation hook is fed the batches of size `batch_size`. -/
theorem call_transform_pass_uses_default_32 (dp : List Nat) (batch_size : Nat)
    (hdp : dp ≠ []) :
    sliceBuilderCall ([] : List Unit) (fun _ _ => true)
      (fun (st : List (List Nat)) b => some (st ++ [b])) [] 1
      (fun _ b => recordingBatchFn b) dp batch_size =
      .ok ([dpBatch 32 dp], ⟨dp.map (fun _ => [true]), 1⟩) ∧
    prepare_dataset (fun (st : List (List Nat)) b => some (st ++ [b])) [] dp batch_size =
      dpBatch batch_size dp := by
  constructor
  · have hpd := process_dataset_recording dp hdp
    simp only [sliceBuilderCall, pendingPrereqs, List.filter_nil, hpd]
  · have h := prepare_loop_records (dpBatch batch_size dp) ([] : List (List Nat))
    simpa [prepare_dataset] using h

/-- C10 witness: a 3-example dataset with caller batch size 5: the transform
pass sees the single batch of size 32, the preparation pass the batches of
size 5. -/
theorem call_transform_pass_uses_default_32_witness :
    (sliceBuilderCall ([] : List Unit) (fun _ _ => true)
      (fun (st : List (List Nat)) b => some (st ++ [b])) [] 1
      (fun _ b => recordingBatchFn b) [(1 : Nat), 2, 3] 5 =
      .ok ([dpBatch 32 [(1 : Nat), 2, 3]], ⟨[[true], [true], [true]], 1⟩)) ∧
    prepare_dataset (fun (st : List (List Nat)) b => some (st ++ [b])) []
      [(1 : Nat), 2, 3] 5 = dpBatch 5 [(1 : Nat), 2, 3] :=
  call_transform_pass_uses_default_32 [1, 2, 3] 5 (by decide)

end RobustnessGym
